import Mathlib

/-!
# Verification of the multi-site job scraper (`multi_site_scraper.py`)

A shallow embedding of the pure/data-level parts of the scraper:

* Python-string semantics helpers (lower-casing, whitespace collapsing,
  stripping, substring tests, first-occurrence deduplication);
* the job record, `validate_job_data` and the per-site accumulation of
  valid records (`run_multi_site_scraper`, lines 1108-1110);
* the merge/upsert block of `run_multi_site_scraper` (lines 1159-1173)
  over tables of string-valued records keyed by `Job ID`;
* the generic-site link classifier (`infer_generic_filters`,
  `apply_generic_filters`, `expand_listing_links`);
* the text heuristics (`extract_years_of_experience`,
  `extract_essential_keywords`), with the regular expressions of the
  source hand-compiled into backtracking matchers over `List Char`
  following Python `re` semantics (leftmost match, greedy preference,
  non-overlapping `finditer`);
* the orchestrator's per-site loop with its failure isolation and
  guaranteed browser teardown (lines 1065-1115).

All character-level functions assume ASCII text, which is what every
string reaching these functions in the source contains.
-/

namespace JobFinder

/-! ## Python string semantics helpers -/

/-- The ASCII characters Python's `str.strip()` and the regex class `\s`
treat as whitespace. -/
def isPySpace (c : Char) : Bool :=
  c = ' ' || c = '\t' || c = '\n' || c = '\r' || c = '\x0b' || c = '\x0c'

/-- `str.lower()` on ASCII text. -/
def pyLower (s : String) : String :=
  String.mk (s.toList.map Char.toLower)

/-- Helper for `collapseWS`: the flag records whether the previous
character was whitespace (so the current run is already represented). -/
def collapseWSAux : Bool → List Char → List Char
  | _, [] => []
  | prevSpace, c :: rest =>
    if isPySpace c then
      if prevSpace then collapseWSAux true rest
      else ' ' :: collapseWSAux true rest
    else c :: collapseWSAux false rest

/-- `re.sub(r'\s+', ' ', ·)`: every maximal run of whitespace becomes one
space. -/
def collapseWS (cs : List Char) : List Char := collapseWSAux false cs

/-- `str.strip()`: drop leading and trailing Python whitespace. -/
def pyStrip (s : String) : String :=
  String.mk (((s.toList.dropWhile isPySpace).reverse.dropWhile isPySpace).reverse)

/-- Does `pat` occur starting right at the head of `cs`? -/
def headMatch : List Char → List Char → Bool
  | [], _ => true
  | _ :: _, [] => false
  | p :: ps, c :: cs => p = c && headMatch ps cs

/-- Does `pat` occur anywhere in `hay` (as a contiguous run)? -/
def subOccurs (pat : List Char) : List Char → Bool
  | [] => headMatch pat []
  | c :: cs => headMatch pat (c :: cs) || subOccurs pat cs

/-- Python's `pat in hay` for strings. -/
def pyIn (pat hay : String) : Bool :=
  subOccurs pat.toList hay.toList

/-- Helper for `pyDedup`: `seen` is the set of already-emitted
elements. -/
def pyDedupAux (seen : List String) : List String → List String
  | [] => []
  | x :: xs => if x ∈ seen then pyDedupAux seen xs else x :: pyDedupAux (seen ++ [x]) xs

/-- `list(dict.fromkeys(xs))`: remove duplicates, keeping the first
occurrence of each element. -/
def pyDedup (l : List String) : List String := pyDedupAux [] l

theorem pyDedupAux_congr : ∀ (xs seen₁ seen₂ : List String),
    (∀ y, y ∈ seen₁ ↔ y ∈ seen₂) → pyDedupAux seen₁ xs = pyDedupAux seen₂ xs
  | [], _, _, _ => rfl
  | x :: xs, s₁, s₂, h => by
      by_cases hx : x ∈ s₁
      · rw [pyDedupAux, pyDedupAux, if_pos hx, if_pos ((h x).mp hx)]
        exact pyDedupAux_congr xs s₁ s₂ h
      · rw [pyDedupAux, pyDedupAux, if_neg hx, if_neg (fun hc => hx ((h x).mpr hc))]
        refine congrArg (x :: ·) (pyDedupAux_congr xs (s₁ ++ [x]) (s₂ ++ [x]) ?_)
        intro y
        simp [List.mem_append, h y]

theorem pyDedupAux_filter : ∀ (xs seen : List String) (x : String),
    pyDedupAux (seen ++ [x]) xs = pyDedupAux seen (xs.filter (fun y => y ≠ x))
  | [], _, _ => rfl
  | y :: ys, seen, x => by
      by_cases hyx : y = x
      · subst hyx
        have hf : (y :: ys).filter (fun z => z ≠ y) = ys.filter (fun z => z ≠ y) := by
          rw [List.filter_cons]
          simp
        rw [hf, pyDedupAux, if_pos (by simp)]
        exact pyDedupAux_filter ys seen y
      · have hf : (y :: ys).filter (fun z => z ≠ x) = y :: ys.filter (fun z => z ≠ x) := by
          rw [List.filter_cons]
          simp [hyx]
        rw [hf]
        by_cases hys : y ∈ seen
        · rw [pyDedupAux, pyDedupAux, if_pos (by simp [hys]), if_pos hys]
          exact pyDedupAux_filter ys seen x
        · rw [pyDedupAux, pyDedupAux, if_neg (by simp [hys, hyx]), if_neg hys]
          refine congrArg (y :: ·) ?_
          calc pyDedupAux (seen ++ [x] ++ [y]) ys
              = pyDedupAux (seen ++ [y] ++ [x]) ys := by
                refine pyDedupAux_congr ys _ _ ?_
                intro z
                simp only [List.mem_append, List.mem_singleton]
                tauto
            _ = pyDedupAux (seen ++ [y]) (ys.filter (fun z => z ≠ x)) :=
                pyDedupAux_filter ys (seen ++ [y]) x

theorem pyDedup_nil : pyDedup [] = [] := rfl

theorem pyDedup_cons (x : String) (xs : List String) :
    pyDedup (x :: xs) = x :: pyDedup (xs.filter (fun y => y ≠ x)) := by
  show pyDedupAux [] (x :: xs) = x :: pyDedupAux [] (xs.filter (fun y => y ≠ x))
  rw [pyDedupAux, if_neg (List.not_mem_nil x)]
  exact congrArg (x :: ·) (pyDedupAux_filter xs [] x)

/-! ## Job records and validation (`validate_job_data`, lines 901-904)

A job record carries the twelve columns of `JOB_SCHEMA`, every value a
string (the source applies `.astype(str)` to every frame it merges). -/

structure Job where
  job_id : String
  job_link : String
  title : String
  company : String
  location : String
  posted : String
  min_requirements : String
  good_to_have : String
  job_description : String
  years_of_experience : String
  essential_keywords : String
  source : String
deriving DecidableEq, Repr

/-- `validate_job_data`: all of `Job ID`, `Job Link`, `Title` are truthy
after `.strip()` (a Python string is truthy iff non-empty). -/
def validate_job_data (j : Job) : Bool :=
  !(pyStrip j.job_id = "") && !(pyStrip j.job_link = "") && !(pyStrip j.title = "")

/-- Lines 1109-1110 of `run_multi_site_scraper`, applied at every loop
iteration: only records passing `validate_job_data` are appended to
`all_jobs`; the whole batch is the concatenation over sites. -/
def accumulate_valid (site_results : List (List Job)) : List Job :=
  (site_results.map (fun jobs => jobs.filter validate_job_data)).flatten

/-! ## The merge/upsert block (`run_multi_site_scraper`, lines 1159-1173)

The source keeps the persisted table and the freshly scraped batch as
pandas frames indexed by the `Job ID` column, with every cell a string
(`.astype(str)` on both frames, `fillna('')` afterwards), so

* `existing_df.index.intersection(new_df.index)` — for unique indexes —
  lists the keys of `existing` that also key `incoming`;
* `merged_df.update(new_df.loc[overlap_ids])` overwrites, for every
  overlapping key, every schema column of the existing row with the
  incoming row's value (no cell is NaN, so nothing is skipped);
* `new_df[~new_df.index.isin(existing_df.index)]` keeps the incoming rows
  whose key is new, in incoming order, and `pd.concat` appends them.

Tables are modelled as lists of rows in frame order, keyed by `job_id`. -/

def tableKeys (t : List Job) : List String := t.map Job.job_id

/-- Row lookup by key (`df.loc[k]` for a unique string index). -/
def findRow (t : List Job) (k : String) : Option Job :=
  t.find? (fun r => r.job_id = k)

/-- The merge block: returns `(merged, added, updated)`. -/
def mergeTables (existing incoming : List Job) : List Job × Nat × Nat :=
  if existing.isEmpty then
    (incoming, incoming.length, 0)
  else
    let exKeys := tableKeys existing
    let inKeys := tableKeys incoming
    let overlap := exKeys.filter (fun k => k ∈ inKeys)
    let addedRows := incoming.filter (fun r => r.job_id ∉ exKeys)
    let updatedTable := existing.map (fun r =>
      if r.job_id ∈ inKeys then (findRow incoming r.job_id).getD r else r)
    (updatedTable ++ addedRows, addedRows.length, overlap.length)

/-- In a table with pairwise-distinct keys, looking a row's own key up
finds that row. -/
theorem findRow_self {t : List Job} (h : (tableKeys t).Nodup) {r : Job}
    (hr : r ∈ t) : findRow t r.job_id = some r := by
  induction t with
  | nil => cases hr
  | cons x xs ih =>
    rcases List.mem_cons.mp hr with hx | hx
    · subst hx
      simp [findRow, List.find?]
    · have hnd : (tableKeys xs).Nodup := by
        simpa [tableKeys] using h.of_cons
      have hne : x.job_id ≠ r.job_id := by
        intro he
        have : x.job_id ∈ tableKeys xs := by
          simpa [tableKeys, he] using List.mem_map_of_mem Job.job_id hx
        exact (List.nodup_cons.mp (by simpa [tableKeys] using h)).1 this
      simpa [findRow, List.find?, hne] using ih hnd hx

theorem findRow_cons_pos {x : Job} {xs : List Job} {k : String}
    (h : x.job_id = k) : findRow (x :: xs) k = some x := by
  simp [findRow, List.find?, h]

theorem findRow_cons_neg {x : Job} {xs : List Job} {k : String}
    (h : ¬ x.job_id = k) : findRow (x :: xs) k = findRow xs k := by
  simp [findRow, List.find?, h]

/-- If `k` keys some row of `t`, lookup succeeds and returns a row keyed
`k`. -/
theorem findRow_mem {t : List Job} {k : String} (h : k ∈ tableKeys t) :
    ∃ r, findRow t k = some r ∧ r.job_id = k := by
  induction t with
  | nil => simp [tableKeys] at h
  | cons x xs ih =>
    by_cases hx : x.job_id = k
    · exact ⟨x, findRow_cons_pos hx, hx⟩
    · have : k ∈ tableKeys xs := by
        rcases by simpa [tableKeys] using h with h1 | h1
        · exact absurd h1.symm hx
        · simpa [tableKeys] using h1
      rcases ih this with ⟨r, hr, hk⟩
      exact ⟨r, (findRow_cons_neg hx).trans hr, hk⟩

/-- Lookup fails exactly on keys that key no row. -/
theorem findRow_eq_none {t : List Job} {k : String} :
    findRow t k = none ↔ k ∉ tableKeys t := by
  induction t with
  | nil => simp [findRow, tableKeys]
  | cons x xs ih =>
    by_cases hx : x.job_id = k
    · simp [findRow_cons_pos hx, tableKeys, hx]
    · rw [findRow_cons_neg hx]
      simp [ih, tableKeys, Ne.symm hx]

theorem findRow_append_left {t₁ t₂ : List Job} {k : String} {r : Job}
    (h : findRow t₁ k = some r) : findRow (t₁ ++ t₂) k = some r := by
  induction t₁ with
  | nil => simp [findRow, List.find?] at h
  | cons x xs ih =>
    by_cases hx : x.job_id = k
    · rw [findRow_cons_pos hx] at h
      rw [List.cons_append, findRow_cons_pos hx]
      exact h
    · rw [findRow_cons_neg hx] at h
      rw [List.cons_append, findRow_cons_neg hx]
      exact ih h

theorem findRow_append_right {t₁ t₂ : List Job} {k : String}
    (h : findRow t₁ k = none) : findRow (t₁ ++ t₂) k = findRow t₂ k := by
  induction t₁ with
  | nil => simp
  | cons x xs ih =>
    by_cases hx : x.job_id = k
    · rw [findRow_cons_pos hx] at h
      cases h
    · rw [findRow_cons_neg hx] at h
      rw [List.cons_append, findRow_cons_neg hx]
      exact ih h

/-- The cell-overwriting step of `merged_df.update(new_df.loc[overlap_ids])`
applied to one existing row. -/
def updateRow (incoming : List Job) (r : Job) : Job :=
  if r.job_id ∈ tableKeys incoming then (findRow incoming r.job_id).getD r else r

theorem updateRow_key (incoming : List Job) (r : Job) :
    (updateRow incoming r).job_id = r.job_id := by
  unfold updateRow
  by_cases h : r.job_id ∈ tableKeys incoming
  · rcases findRow_mem h with ⟨j, hj, hk⟩
    simp [h, hj, hk]
  · simp [h]

/-- `mergeTables` written with `updateRow`; the `let`s of the definition
unfold to this. -/
theorem mergeTables_eq (existing incoming : List Job) (h : existing ≠ []) :
    mergeTables existing incoming =
      (existing.map (updateRow incoming)
         ++ incoming.filter (fun r => r.job_id ∉ tableKeys existing),
       (incoming.filter (fun r => r.job_id ∉ tableKeys existing)).length,
       ((tableKeys existing).filter (fun k => k ∈ tableKeys incoming)).length) := by
  have : existing.isEmpty = false := by
    cases existing with
    | nil => exact absurd rfl h
    | cons x xs => rfl
  simp [mergeTables, this, updateRow]

theorem tableKeys_map_updateRow (existing incoming : List Job) :
    tableKeys (existing.map (updateRow incoming)) = tableKeys existing := by
  induction existing with
  | nil => rfl
  | cons x xs ih =>
    simp only [List.map_cons, tableKeys, List.map] at ih ⊢
    rw [updateRow_key]
    exact congrArg (x.job_id :: ·) ih

theorem tableKeys_filter (p : String → Bool) (t : List Job) :
    tableKeys (t.filter (fun r => p r.job_id)) = (tableKeys t).filter p := by
  induction t with
  | nil => rfl
  | cons x xs ih =>
    by_cases hx : p x.job_id
    · simp only [tableKeys] at ih ⊢
      simp [List.filter_cons, hx, ih]
    · simp only [tableKeys] at ih ⊢
      simp [List.filter_cons, hx, ih]

theorem findRow_map_updateRow (existing incoming : List Job) (k : String) :
    findRow (existing.map (updateRow incoming)) k =
      (findRow existing k).map (updateRow incoming) := by
  induction existing with
  | nil => rfl
  | cons x xs ih =>
    by_cases hx : x.job_id = k
    · simp [findRow, List.find?, updateRow_key, hx]
    · simpa [findRow, List.find?, updateRow_key, hx] using ih

theorem findRow_filter_not_mem {incoming : List Job} {ex : List String}
    {k : String} (hk : k ∉ ex) :
    findRow (incoming.filter (fun r => r.job_id ∉ ex)) k = findRow incoming k := by
  induction incoming with
  | nil => rfl
  | cons x xs ih =>
    by_cases hm : x.job_id ∈ ex
    · have hx : ¬ x.job_id = k := fun he => hk (he ▸ hm)
      have hdrop : (x :: xs).filter (fun r => r.job_id ∉ ex)
          = xs.filter (fun r => r.job_id ∉ ex) := by
        rw [List.filter_cons]
        simp [hm]
      rw [hdrop, ih, findRow_cons_neg hx]
    · have hkeep : (x :: xs).filter (fun r => r.job_id ∉ ex)
          = x :: xs.filter (fun r => r.job_id ∉ ex) := by
        rw [List.filter_cons]
        simp [hm]
      rw [hkeep]
      by_cases hx : x.job_id = k
      · rw [findRow_cons_pos hx, findRow_cons_pos hx]
      · rw [findRow_cons_neg hx, findRow_cons_neg hx, ih]

theorem tableKeys_append (t₁ t₂ : List Job) :
    tableKeys (t₁ ++ t₂) = tableKeys t₁ ++ tableKeys t₂ :=
  List.map_append _ t₁ t₂

/-- The merge behaviour claimed for every existing table and incoming
batch keyed by `id`: empty case, counts, wholesale overwrite of
overlapping rows, preservation of untouched rows, and the key layout of
the merged table. -/
def mergeClaim (existing incoming : List Job) : Prop :=
  (existing = [] → mergeTables existing incoming = (incoming, incoming.length, 0)) ∧
  (existing ≠ [] →
    (mergeTables existing incoming).2.2
        = ((tableKeys existing).toFinset ∩ (tableKeys incoming).toFinset).card ∧
    (mergeTables existing incoming).2.1
        = ((tableKeys incoming).toFinset \ (tableKeys existing).toFinset).card ∧
    (∀ k ∈ tableKeys incoming,
        findRow (mergeTables existing incoming).1 k = findRow incoming k) ∧
    (∀ k ∈ tableKeys existing, k ∉ tableKeys incoming →
        findRow (mergeTables existing incoming).1 k = findRow existing k) ∧
    tableKeys (mergeTables existing incoming).1
        = tableKeys existing
            ++ (tableKeys incoming).filter (fun k => k ∉ tableKeys existing))

/-- C2: the merge block treats an empty existing table as pure insertion;
otherwise it counts overlaps as `updated`, counts new keys as `added`,
replaces every overlapping row wholesale by the incoming row, keeps
non-overlapping existing rows untouched, and appends the new-only rows. -/
theorem merge_overwrite_semantics (existing incoming : List Job)
    (hex : (tableKeys existing).Nodup) (hinc : (tableKeys incoming).Nodup) :
    mergeClaim existing incoming := by
  constructor
  · intro h
    subst h
    simp [mergeTables]
  · intro hne
    rw [mergeTables_eq existing incoming hne]
    refine ⟨?_, ?_, ?_, ?_, ?_⟩
    · -- updated = |keys(existing) ∩ keys(incoming)|
      have hnd : ((tableKeys existing).filter
          (fun k => k ∈ tableKeys incoming)).Nodup := hex.filter _
      rw [← List.toFinset_card_of_nodup hnd]
      apply congrArg Finset.card
      ext a
      simp [List.mem_filter]
    · -- added = |keys(incoming) \ keys(existing)|
      have hlen : (incoming.filter (fun r => r.job_id ∉ tableKeys existing)).length
          = ((tableKeys incoming).filter (fun k => k ∉ tableKeys existing)).length := by
        rw [← tableKeys_filter (fun k => k ∉ tableKeys existing) incoming]
        exact (List.length_map _ _).symm
      have hnd : ((tableKeys incoming).filter
          (fun k => k ∉ tableKeys existing)).Nodup := hinc.filter _
      rw [hlen, ← List.toFinset_card_of_nodup hnd]
      apply congrArg Finset.card
      ext a
      simp [List.mem_filter]
    · -- rows keyed by an incoming key end up exactly as scraped
      intro k hk
      by_cases hkex : k ∈ tableKeys existing
      · rcases findRow_mem hkex with ⟨r0, hr0, hk0⟩
        rcases findRow_mem hk with ⟨j, hj, hjk⟩
        have hupd : findRow (existing.map (updateRow incoming)) k
            = some (updateRow incoming r0) := by
          rw [findRow_map_updateRow, hr0]
          rfl
        have : updateRow incoming r0 = j := by
          unfold updateRow
          rw [hk0]
          simp [hk, hj]
        rw [findRow_append_left (hupd.trans (by rw [this])), hj]
      · have hnone : findRow (existing.map (updateRow incoming)) k = none := by
          rw [findRow_eq_none, tableKeys_map_updateRow]
          exact hkex
        rw [findRow_append_right hnone, findRow_filter_not_mem hkex]
    · -- rows keyed only in existing are untouched
      intro k hk hnotin
      rcases findRow_mem hk with ⟨r0, hr0, hk0⟩
      have hupd : findRow (existing.map (updateRow incoming)) k
          = some (updateRow incoming r0) := by
        rw [findRow_map_updateRow, hr0]
        rfl
      have : updateRow incoming r0 = r0 := by
        unfold updateRow
        rw [hk0]
        simp [hnotin]
      rw [findRow_append_left (hupd.trans (by rw [this])), hr0]
    · -- merged keys: existing keys then the new-only incoming keys
      rw [tableKeys_append, tableKeys_map_updateRow,
        tableKeys_filter (fun k => k ∉ tableKeys existing) incoming]

/-- C1: merging a batch into the table produced by merging that same
batch into the empty table changes nothing: `added = 0`,
`updated = |B|`, and the merged table is the batch itself. -/
theorem merge_idempotent (B : List Job) (h : (tableKeys B).Nodup) :
    mergeTables [] B = (B, B.length, 0) ∧
    mergeTables (mergeTables [] B).1 B = ((mergeTables [] B).1, 0, B.length) := by
  have h0 : mergeTables [] B = (B, B.length, 0) := by simp [mergeTables]
  refine ⟨h0, ?_⟩
  rw [h0]
  show mergeTables B B = (B, 0, B.length)
  by_cases hB : B = []
  · subst hB
    simp [mergeTables]
  · rw [mergeTables_eq B B hB]
    have hupd : ∀ r ∈ B, updateRow B r = r := by
      intro r hr
      have hm : r.job_id ∈ tableKeys B := List.mem_map_of_mem _ hr
      unfold updateRow
      simp [hm, findRow_self h hr]
    have h1 : B.map (updateRow B) = B := by
      have := List.map_congr_left hupd
      simpa using this
    have h2 : B.filter (fun r => r.job_id ∉ tableKeys B) = [] := by
      rw [List.filter_eq_nil_iff]
      intro r hr
      simp only [decide_not, Bool.not_eq_true', decide_eq_false_iff_not, not_not]
      exact List.mem_map_of_mem Job.job_id hr
    have h3 : (tableKeys B).filter (fun k => k ∈ tableKeys B) = tableKeys B := by
      rw [List.filter_eq_self]
      intro a ha
      simpa using ha
    rw [h1, h2, h3]
    simp [tableKeys]

/-! Concrete records for the merge witnesses (the literal case of the
spec: `existing = {A, B}`, `incoming = {B', C}`). -/

def blankJob : Job :=
  { job_id := "", job_link := "", title := "", company := "", location := "",
    posted := "", min_requirements := "", good_to_have := "", job_description := "",
    years_of_experience := "", essential_keywords := "", source := "" }

def jobA : Job :=
  { blankJob with job_id := "idA", job_link := "https://x.com/job/a", title := "Role A" }

def jobB : Job :=
  { blankJob with job_id := "idB", job_link := "https://x.com/job/b", title := "Role B" }

def jobB2 : Job :=
  { blankJob with job_id := "idB", job_link := "https://x.com/job/b", title := "Role B new" }

def jobC : Job :=
  { blankJob with job_id := "idC", job_link := "https://x.com/job/c", title := "Role C" }

/-- Witness for C1 at the two-record batch `[jobA, jobB]`. -/
theorem merge_idempotent_witness :
    (tableKeys [jobA, jobB]).Nodup ∧
    (mergeTables [] [jobA, jobB] = ([jobA, jobB], 2, 0) ∧
     mergeTables (mergeTables [] [jobA, jobB]).1 [jobA, jobB]
       = ((mergeTables [] [jobA, jobB]).1, 0, 2)) :=
  ⟨by decide, merge_idempotent [jobA, jobB] (by decide)⟩

/-- Witness for C2 at the spec's literal case: also checks
`merged = [A, B', C]`, `added = 1`, `updated = 1` outright. -/
theorem merge_overwrite_semantics_witness :
    ((tableKeys [jobA, jobB]).Nodup ∧ (tableKeys [jobB2, jobC]).Nodup ∧
     mergeTables [jobA, jobB] [jobB2, jobC] = ([jobA, jobB2, jobC], 1, 1)) ∧
    mergeClaim [jobA, jobB] [jobB2, jobC] :=
  ⟨⟨by decide, by decide, by decide⟩,
   merge_overwrite_semantics [jobA, jobB] [jobB2, jobC] (by decide) (by decide)⟩

/-! ## C6: the validation gate -/

/-- C6: `validate_job_data` accepts a record exactly when `Job ID`,
`Job Link` and `Title` are non-blank after stripping; every record in the
batch accumulated for the merge passed it, so a record with an empty
title is never in that batch (it is dropped, no error is raised —
`accumulate_valid` is total). -/
theorem validate_gate (j : Job) (site_results : List (List Job)) :
    (validate_job_data j = true ↔
       (pyStrip j.job_id ≠ "" ∧ pyStrip j.job_link ≠ "" ∧ pyStrip j.title ≠ "")) ∧
    (∀ i ∈ accumulate_valid site_results, validate_job_data i = true) ∧
    (j.title = "" → j ∉ accumulate_valid site_results) := by
  have hval : ∀ i : Job, validate_job_data i = true ↔
      (pyStrip i.job_id ≠ "" ∧ pyStrip i.job_link ≠ "" ∧ pyStrip i.title ≠ "") := by
    intro i
    simp [validate_job_data, and_assoc]
  have hacc : ∀ i ∈ accumulate_valid site_results, validate_job_data i = true := by
    intro i hi
    simp only [accumulate_valid, List.mem_flatten, List.mem_map] at hi
    obtain ⟨_, ⟨jobs, _, rfl⟩, hmem⟩ := hi
    exact (List.mem_filter.mp hmem).2
  refine ⟨hval j, hacc, ?_⟩
  intro ht hmem
  have hv := (hval j).mp (hacc j hmem)
  have : pyStrip j.title = "" := by
    rw [ht]
    decide
  exact hv.2.2 this

/-! ## C7: orchestrator failure isolation (lines 1065-1115)

The per-site loop of `run_multi_site_scraper`: disabled sites and sites
rejected by the `site_filter` are skipped before any browser starts; for
every other site the whole navigate-and-extract step (modelled as an
environment `scrape` that either returns raw records or raises) runs in
a `try` whose `except` only logs, and whose `finally` always calls
`scraper.close_browser()`. -/

structure SiteConfig where
  name : String
  siteType : String
  url : String
  enabled : Bool
deriving DecidableEq, Repr

/-- Lines 1071-1073: `if site_filter and site['type'] not in site_filter`.
An empty filter list is falsy in Python, hence skips nothing. -/
def passes_site_filter (flt : Option (List String)) (s : SiteConfig) : Bool :=
  match flt with
  | none => true
  | some types => types.isEmpty || s.siteType ∈ types

/-- The loop state: the accumulating batch and the sites whose browser
teardown (`close_browser`, in `finally`) has run. -/
structure RunState where
  all_jobs : List Job
  closed : List String
deriving Repr

/-- One iteration of the site loop. -/
def process_site (scrape : SiteConfig → Except String (List Job))
    (flt : Option (List String)) (st : RunState) (site : SiteConfig) : RunState :=
  if site.enabled = false then st
  else if passes_site_filter flt site = false then st
  else
    match scrape site with
    | Except.ok jobs =>
        ⟨st.all_jobs ++ jobs.filter validate_job_data, st.closed ++ [site.name]⟩
    | Except.error _ => ⟨st.all_jobs, st.closed ++ [site.name]⟩

/-- The whole site loop. -/
def run_sites (scrape : SiteConfig → Except String (List Job))
    (flt : Option (List String)) (sites : List SiteConfig) : RunState :=
  sites.foldl (process_site scrape flt) ⟨[], []⟩

theorem process_site_mono (scrape : SiteConfig → Except String (List Job))
    (flt : Option (List String)) (st : RunState) (site : SiteConfig) :
    (∀ j ∈ st.all_jobs, j ∈ (process_site scrape flt st site).all_jobs) ∧
    (∀ n ∈ st.closed, n ∈ (process_site scrape flt st site).closed) := by
  unfold process_site
  split
  · exact ⟨fun j h => h, fun n h => h⟩
  · split
    · exact ⟨fun j h => h, fun n h => h⟩
    · cases scrape site with
      | ok jobs =>
        exact ⟨fun j h => List.mem_append_left _ h, fun n h => List.mem_append_left _ h⟩
      | error e =>
        exact ⟨fun j h => h, fun n h => List.mem_append_left _ h⟩

theorem foldl_sites_mono (scrape : SiteConfig → Except String (List Job))
    (flt : Option (List String)) (sites : List SiteConfig) (st : RunState) :
    (∀ j ∈ st.all_jobs, j ∈ (sites.foldl (process_site scrape flt) st).all_jobs) ∧
    (∀ n ∈ st.closed, n ∈ (sites.foldl (process_site scrape flt) st).closed) := by
  induction sites generalizing st with
  | nil => exact ⟨fun j h => h, fun n h => h⟩
  | cons s rest ih =>
    refine ⟨fun j h => ?_, fun n h => ?_⟩
    · exact (ih (process_site scrape flt st s)).1 j ((process_site_mono scrape flt st s).1 j h)
    · exact (ih (process_site scrape flt st s)).2 n ((process_site_mono scrape flt st s).2 n h)

theorem run_sites_aux (scrape : SiteConfig → Except String (List Job))
    (flt : Option (List String)) (sites : List SiteConfig) (st : RunState) :
    (∀ s ∈ sites, s.enabled = true → passes_site_filter flt s = true →
       s.name ∈ (sites.foldl (process_site scrape flt) st).closed) ∧
    (∀ s ∈ sites, s.enabled = true → passes_site_filter flt s = true →
       ∀ jobs, scrape s = Except.ok jobs →
       ∀ j ∈ jobs.filter validate_job_data,
         j ∈ (sites.foldl (process_site scrape flt) st).all_jobs) := by
  induction sites generalizing st with
  | nil => exact ⟨fun s h => absurd h (List.not_mem_nil s), fun s h => absurd h (List.not_mem_nil s)⟩
  | cons x rest ih =>
    constructor
    · intro s hs hen hpass
      rcases List.mem_cons.mp hs with rfl | hs'
      · have hstep : s.name ∈ (process_site scrape flt st s).closed := by
          unfold process_site
          rw [hen, hpass]
          simp only [Bool.true_eq_false, if_false]
          cases scrape s with
          | ok jobs => exact List.mem_append_right _ (List.mem_singleton.mpr rfl)
          | error e => exact List.mem_append_right _ (List.mem_singleton.mpr rfl)
        exact (foldl_sites_mono scrape flt rest _).2 s.name hstep
      · exact (ih (process_site scrape flt st x)).1 s hs' hen hpass
    · intro s hs hen hpass jobs hok j hj
      rcases List.mem_cons.mp hs with rfl | hs'
      · have hstep : j ∈ (process_site scrape flt st s).all_jobs := by
          unfold process_site
          rw [hen, hpass]
          simp only [Bool.true_eq_false, if_false]
          rw [hok]
          exact List.mem_append_right _ hj
        exact (foldl_sites_mono scrape flt rest _).1 j hstep
      · exact (ih (process_site scrape flt st x)).2 s hs' hen hpass jobs hok j hj

/-- C7: whatever every other site's scrape does (in particular however
one site fails), every enabled, filter-admitted site has its teardown
recorded, and — when its scrape succeeds — all its validated records are
in the final batch. -/
theorem site_failure_isolated (scrape : SiteConfig → Except String (List Job))
    (flt : Option (List String)) (sites : List SiteConfig) :
    (∀ s ∈ sites, s.enabled = true → passes_site_filter flt s = true →
       s.name ∈ (run_sites scrape flt sites).closed) ∧
    (∀ s ∈ sites, s.enabled = true → passes_site_filter flt s = true →
       ∀ jobs, scrape s = Except.ok jobs →
       ∀ j ∈ jobs.filter validate_job_data, j ∈ (run_sites scrape flt sites).all_jobs) :=
  run_sites_aux scrape flt sites ⟨[], []⟩

def siteOne : SiteConfig := ⟨"Site One", "generic", "https://one.example/careers", true⟩

def siteTwo : SiteConfig := ⟨"Site Two", "generic", "https://two.example/careers", true⟩

def siteThree : SiteConfig := ⟨"Site Three", "generic", "https://three.example/careers", true⟩

def jobOfSiteTwo : Job :=
  { blankJob with job_id := "id2", job_link := "https://two.example/job/1", title := "Role 2" }

def jobOfSiteThree : Job :=
  { blankJob with job_id := "id3", job_link := "https://three.example/job/1", title := "Role 3" }

/-- An environment in which site 1's navigation fails outright. -/
def scrapeEnvFail1 (s : SiteConfig) : Except String (List Job) :=
  if s.name = "Site One" then Except.error "Navigation failed"
  else if s.name = "Site Two" then Except.ok [jobOfSiteTwo]
  else Except.ok [jobOfSiteThree]

/-- Witness for C7: site 1 of 3 fails to navigate; sites 2 and 3 still
contribute their validated records, and site 1 is still torn down. -/
theorem site_failure_isolated_witness :
    "Site One" ∈ (run_sites scrapeEnvFail1 none [siteOne, siteTwo, siteThree]).closed ∧
    jobOfSiteTwo ∈ (run_sites scrapeEnvFail1 none [siteOne, siteTwo, siteThree]).all_jobs ∧
    jobOfSiteThree ∈ (run_sites scrapeEnvFail1 none [siteOne, siteTwo, siteThree]).all_jobs :=
  ⟨(site_failure_isolated scrapeEnvFail1 none [siteOne, siteTwo, siteThree]).1
      siteOne (by decide) rfl rfl,
   (site_failure_isolated scrapeEnvFail1 none [siteOne, siteTwo, siteThree]).2
      siteTwo (by decide) rfl rfl [jobOfSiteTwo] rfl jobOfSiteTwo (by decide),
   (site_failure_isolated scrapeEnvFail1 none [siteOne, siteTwo, siteThree]).2
      siteThree (by decide) rfl rfl [jobOfSiteThree] rfl jobOfSiteThree (by decide)⟩

/-! ## The generic-site link classifier

`DEFAULT_GENERIC_FILTERS` (lines 19-24), `infer_generic_filters`
(lines 779-800), `apply_generic_filters` (lines 802-833) and
`expand_listing_links` (lines 835-865). -/

structure FilterProfile where
  include_patterns : List String
  exclude_patterns : List String
  title_must_contain : List String
  max_jobs : Nat
deriving DecidableEq, Repr

def DEFAULT_GENERIC_FILTERS : FilterProfile :=
  { include_patterns := ["/job", "/jobs", "/search", "workdayjobs", "greenhouse.io", "lever.co"],
    exclude_patterns := ["/about", "/blog", "/news", "/event", "/privacy", "/terms",
                         "/contact", "/investor"],
    title_must_contain := [],
    max_jobs := 20 }

def include_hints : List String :=
  ["/job/", "/jobs/", "/job?", "/jobs?", "/search/", "/search?",
   "workdayjobs", "greenhouse.io", "lever.co", "smartrecruiters", "icims.com"]

/-- `infer_generic_filters`: keep every hint occurring in some candidate
link (links lower-cased first); an empty result falls back to the default
include set (`include_patterns or DEFAULT_…`, empty list falsy). -/
def infer_generic_filters (links : List String) : FilterProfile :=
  let links_lower := links.map pyLower
  let incl := include_hints.filter (fun h => links_lower.any (fun l => pyIn h l))
  { include_patterns := if incl.isEmpty then DEFAULT_GENERIC_FILTERS.include_patterns else incl,
    exclude_patterns := DEFAULT_GENERIC_FILTERS.exclude_patterns,
    title_must_contain := [],
    max_jobs := DEFAULT_GENERIC_FILTERS.max_jobs }

def isSchemeChar (c : Char) : Bool :=
  c.isAlpha || c.isDigit || c = '+' || c = '-' || c = '.'

/-- Models `urllib.parse.urlparse(url).path` for the URL shapes the
scraper handles (`scheme://netloc/path`, optional `?query` and
`#fragment`): the fragment and query are cut off, a well-formed leading
`scheme:` is removed, and after `//` everything up to the next `/` is
netloc; what remains (starting at that `/`, possibly empty) is the
path. -/
def urlPath (url : String) : String :=
  let cs := (url.toList.takeWhile (fun c => c ≠ '#')).takeWhile (fun c => c ≠ '?')
  let pre := cs.takeWhile (fun c => c ≠ ':')
  let rest :=
    if pre.length < cs.length && !pre.isEmpty
        && (match pre.head? with | some c => c.isAlpha | none => false)
        && pre.all isSchemeChar
    then cs.drop (pre.length + 1) else cs
  let path :=
    match rest with
    | '/' :: '/' :: r => r.dropWhile (fun c => c ≠ '/')
    | r => r
  String.mk path

/-- The bare placeholder paths dropped at lines 826-828. -/
def is_bare_path (p : String) : Bool :=
  p = "" || p = "/" || p = "/careers" || p = "/jobs"

/-- The body of the per-link test in `apply_generic_filters` (include
patterns, exclude patterns, bare-path check), for already cleaned
pattern lists. -/
def keep_link (inc exc : List String) (link : String) : Bool :=
  let lower_link := pyLower link
  (inc.isEmpty || inc.any (fun p => pyIn p lower_link)) &&
  !(exc.any (fun p => pyIn p lower_link)) &&
  !(is_bare_path (pyLower (pyStrip (urlPath link))))

/-- The `if x not in acc: acc.append(x)` loop shape shared by
`apply_generic_filters` (over links) and `expand_listing_links` (over
anchors). -/
def dedupAppendLoop (pred : String → Bool) : List String → List String → List String
  | [], acc => acc
  | x :: xs, acc =>
      dedupAppendLoop pred xs
        (if pred x then (if x ∉ acc then acc ++ [x] else acc) else acc)

/-- `apply_generic_filters(links, filters)`. -/
def apply_generic_filters (links : List String) (filters : Option FilterProfile) :
    List String :=
  if links.isEmpty then []
  else
    let eff := filters.getD DEFAULT_GENERIC_FILTERS
    let inc := (eff.include_patterns.filter (fun p => pyStrip p ≠ "")).map pyLower
    let exc := (eff.exclude_patterns.filter (fun p => pyStrip p ≠ "")).map pyLower
    (dedupAppendLoop (keep_link inc exc) links []).take eff.max_jobs

def listing_tokens : List String := ["/search", "/jobs", "/careers", "/opportunities"]

def job_tokens : List String :=
  ["/job/", "/jobs/view/", "/position/", "/requisition", "greenhouse.io", "lever.co"]

/-- Line 843-846: a filtered link is treated as a listing page when it
carries a listing token and does not carry `/job/`. -/
def is_listing_link (l : String) : Bool :=
  listing_tokens.any (fun t => pyIn t (pyLower l)) && !(pyIn "/job/" (pyLower l))

def pyStartsWith (pre s : String) : Bool := headMatch pre.toList s.toList

/-- Lines 854-860: an anchor is kept when it is an absolute http(s) URL
carrying a job-detail token. -/
def anchor_kept (a : String) : Bool :=
  pyStartsWith "http" a && job_tokens.any (fun t => pyIn t (pyLower a))

/-- What one listing page contributes: `none` models the `except:
continue` branch (`page.goto`/`eval_on_selector_all` raised), `some`
runs the anchor loop. -/
def fetched_anchors_step (acc : List String) : Option (List String) → List String
  | none => acc
  | some anchors => dedupAppendLoop anchor_kept anchors acc

/-- The per-listing-page loop; `fetch` models `page.goto` +
`eval_on_selector_all`. -/
def expand_loop (fetch : String → Option (List String)) :
    List String → List String → List String
  | [], acc => acc
  | l :: ls, acc => expand_loop fetch ls (fetched_anchors_step acc (fetch l))

/-- `expand_listing_links(links)`, parametrised by the page environment
and the configured `max_jobs`. -/
def expand_listing_links (fetch : String → Option (List String)) (maxJobs : Nat)
    (links : List String) : List String :=
  if links.isEmpty then []
  else ((expand_loop fetch ((links.filter is_listing_link).take 5) []).take maxJobs)

/-- Lines 718-719 of `extract_from_generic`: fall back to the filtered
links when expansion yields nothing. -/
def choose_scrape_links (filtered expanded : List String) : List String :=
  if expanded.isEmpty then filtered else expanded

/-! ### First-occurrence deduplication lemmas -/

theorem mem_pyDedup : ∀ (l : List String) (x : String), x ∈ pyDedup l ↔ x ∈ l
  | [], x => by simp [pyDedup_nil]
  | y :: ys, x => by
      rw [pyDedup_cons]
      constructor
      · intro h
        rcases List.mem_cons.mp h with rfl | h2
        · exact List.mem_cons_self _ _
        · have := (mem_pyDedup (ys.filter (fun a => a ≠ y)) x).mp h2
          exact List.mem_cons_of_mem _ (List.mem_filter.mp this).1
      · intro h
        rcases List.mem_cons.mp h with rfl | h2
        · exact List.mem_cons_self _ _
        · by_cases hxy : x = y
          · subst hxy
            exact List.mem_cons_self _ _
          · refine List.mem_cons_of_mem _
              ((mem_pyDedup (ys.filter (fun a => a ≠ y)) x).mpr ?_)
            exact List.mem_filter.mpr ⟨h2, by simp [hxy]⟩
termination_by l _ => l.length
decreasing_by
  all_goals exact Nat.lt_succ_of_le (List.length_filter_le _ _)

theorem pyDedupAux_sublist : ∀ (l seen : List String), List.Sublist (pyDedupAux seen l) l
  | [], _ => List.Sublist.refl []
  | x :: xs, seen => by
      rw [pyDedupAux]
      by_cases hx : x ∈ seen
      · rw [if_pos hx]
        exact (pyDedupAux_sublist xs seen).cons x
      · rw [if_neg hx]
        exact (pyDedupAux_sublist xs (seen ++ [x])).cons₂ x

theorem pyDedup_sublist (l : List String) : List.Sublist (pyDedup l) l :=
  pyDedupAux_sublist l []

theorem pyDedup_nodup : ∀ (l : List String), (pyDedup l).Nodup
  | [] => by
      rw [pyDedup_nil]
      exact List.nodup_nil
  | y :: ys => by
      rw [pyDedup_cons]
      refine List.nodup_cons.mpr ⟨?_, pyDedup_nodup (ys.filter (fun a => a ≠ y))⟩
      intro hmem
      have := List.mem_filter.mp ((mem_pyDedup _ y).mp hmem)
      simp at this
termination_by l => l.length
decreasing_by
  exact Nat.lt_succ_of_le (List.length_filter_le _ _)

theorem pyDedup_append : ∀ (A B : List String),
    pyDedup (A ++ B) = pyDedup A ++ pyDedup (B.filter (fun x => x ∉ A))
  | [], B => by
      rw [List.nil_append, pyDedup_nil, List.nil_append]
      exact (congrArg pyDedup (List.filter_eq_self.mpr (fun a _ => by simp))).symm
  | a :: A, B => by
      rw [List.cons_append, pyDedup_cons, pyDedup_cons, List.filter_append,
        pyDedup_append (A.filter (fun y => y ≠ a)) (B.filter (fun y => y ≠ a))]
      rw [List.cons_append]
      have hBB : (B.filter (fun y => y ≠ a)).filter
            (fun x => x ∉ A.filter (fun y => y ≠ a))
          = B.filter (fun x => x ∉ a :: A) := by
        rw [List.filter_filter]
        refine List.filter_congr ?_
        intro x _
        by_cases hxa : x = a
        · subst hxa
          simp
        · by_cases hxA : x ∈ A <;> simp [hxa, hxA, List.mem_filter]
      rw [hBB]
termination_by A _ => A.length
decreasing_by
  exact Nat.lt_succ_of_le (List.length_filter_le _ _)

/-- The append-if-new loop, declaratively: what it adds to `acc` is the
first-occurrence dedup of the kept, not-already-present elements. -/
theorem dedupAppendLoop_eq (pred : String → Bool) :
    ∀ (xs acc : List String),
      dedupAppendLoop pred xs acc
        = acc ++ pyDedup ((xs.filter pred).filter (fun x => x ∉ acc))
  | [], acc => by simp [dedupAppendLoop, pyDedup_nil]
  | x :: xs, acc => by
      rw [dedupAppendLoop]
      by_cases hp : pred x
      · by_cases hm : x ∈ acc
        · rw [if_pos hp, if_neg (by simpa using hm), dedupAppendLoop_eq pred xs acc]
          have heq : ((x :: xs).filter pred).filter (fun z => z ∉ acc)
              = (xs.filter pred).filter (fun z => z ∉ acc) := by
            rw [List.filter_cons]
            simp [hp, hm]
          rw [heq]
        · rw [if_pos hp, if_pos (by simpa using hm),
            dedupAppendLoop_eq pred xs (acc ++ [x])]
          have hsplit : ((x :: xs).filter pred).filter (fun z => z ∉ acc)
              = x :: (xs.filter pred).filter (fun z => z ∉ acc) := by
            rw [List.filter_cons]
            simp [hp, hm]
          rw [hsplit, pyDedup_cons]
          have hinner : (xs.filter pred).filter (fun z => z ∉ acc ++ [x])
              = ((xs.filter pred).filter (fun z => z ∉ acc)).filter
                  (fun z => z ≠ x) := by
            simp only [List.filter_filter]
            refine List.filter_congr ?_
            intro z _
            by_cases hzx : z = x
            · subst hzx
              simp
            · by_cases hza : z ∈ acc <;> simp [hzx, hza]
          rw [hinner]
          simp [List.append_assoc]
      · rw [if_neg hp, dedupAppendLoop_eq pred xs acc]
        have heq : (x :: xs).filter pred = xs.filter pred := by
          rw [List.filter_cons]
          simp [hp]
        rw [heq]

/-- The listing-page expansion loop, declaratively. -/
theorem expand_loop_eq (fetch : String → Option (List String)) :
    ∀ (pages acc : List String),
      expand_loop fetch pages acc
        = acc ++ pyDedup ((((pages.filterMap fetch).flatten).filter anchor_kept).filter
            (fun x => x ∉ acc))
  | [], acc => by simp [expand_loop, pyDedup_nil]
  | p :: ps, acc => by
      rw [expand_loop]
      cases hf : fetch p with
      | none =>
        rw [fetched_anchors_step, expand_loop_eq fetch ps acc]
        simp [List.filterMap_cons, hf]
      | some anchors =>
        rw [fetched_anchors_step,
          expand_loop_eq fetch ps (dedupAppendLoop anchor_kept anchors acc),
          dedupAppendLoop_eq anchor_kept anchors acc]
        simp only [List.filterMap_cons, hf, List.flatten_cons, List.filter_append]
        rw [pyDedup_append]
        have hBB : ((((ps.filterMap fetch).flatten).filter anchor_kept).filter
              (fun x => x ∉ acc ++ pyDedup ((anchors.filter anchor_kept).filter
                (fun x => x ∉ acc))))
            = ((((ps.filterMap fetch).flatten).filter anchor_kept).filter
                (fun x => x ∉ acc)).filter
                  (fun x => x ∉ (anchors.filter anchor_kept).filter (fun z => z ∉ acc)) := by
          simp only [List.filter_filter]
          refine List.filter_congr ?_
          intro z _
          by_cases h1 : z ∈ acc
          · simp [List.mem_append, h1]
          · by_cases hk : anchor_kept z <;> by_cases hza : z ∈ anchors <;>
              simp [List.mem_append, mem_pyDedup, List.mem_filter, h1, hk, hza]
        rw [hBB, List.append_assoc]

/-! ### C5: `apply_generic_filters` -/

/-- The claimed per-link keep condition: include patterns (empty list
admits all), exclude patterns, bare-path rule. -/
def claim_keep (prof : FilterProfile) (link : String) : Bool :=
  (prof.include_patterns.isEmpty
     || prof.include_patterns.any (fun p => pyIn p (pyLower link))) &&
  !(prof.exclude_patterns.any (fun p => pyIn p (pyLower link))) &&
  !(is_bare_path (pyLower (pyStrip (urlPath link))))

/-- C5: for a profile whose patterns are already clean (non-blank after
stripping, lower-case — which all default and inferred patterns are),
`apply_generic_filters` keeps a link iff the claimed condition holds,
deduplicates preserving first occurrences, and truncates to
`max_jobs`. -/
theorem apply_filters_spec (links : List String) (prof : FilterProfile)
    (hinc : ∀ p ∈ prof.include_patterns, pyStrip p ≠ "" ∧ pyLower p = p)
    (hexc : ∀ p ∈ prof.exclude_patterns, pyStrip p ≠ "" ∧ pyLower p = p) :
    apply_generic_filters links (some prof)
      = (pyDedup (links.filter (claim_keep prof))).take prof.max_jobs := by
  by_cases hl : links = []
  · subst hl
    simp [apply_generic_filters, pyDedup_nil]
  · have hne : links.isEmpty = false := by
      cases links with
      | nil => exact absurd rfl hl
      | cons a as => rfl
    unfold apply_generic_filters
    rw [hne]
    simp only [Bool.false_eq_true, if_false]
    have hinc1 : prof.include_patterns.filter (fun p => pyStrip p ≠ "")
        = prof.include_patterns :=
      List.filter_eq_self.mpr (fun p hp => by simp [(hinc p hp).1])
    have hexc1 : prof.exclude_patterns.filter (fun p => pyStrip p ≠ "")
        = prof.exclude_patterns :=
      List.filter_eq_self.mpr (fun p hp => by simp [(hexc p hp).1])
    have hinc2 : prof.include_patterns.map pyLower = prof.include_patterns := by
      have := List.map_congr_left (l := prof.include_patterns)
        (f := pyLower) (g := id) (fun p hp => (hinc p hp).2)
      simpa using this
    have hexc2 : prof.exclude_patterns.map pyLower = prof.exclude_patterns := by
      have := List.map_congr_left (l := prof.exclude_patterns)
        (f := pyLower) (g := id) (fun p hp => (hexc p hp).2)
      simpa using this
    rw [show (some prof).getD DEFAULT_GENERIC_FILTERS = prof from rfl,
      hinc1, hexc1, hinc2, hexc2,
      dedupAppendLoop_eq (keep_link prof.include_patterns prof.exclude_patterns) links []]
    have hkeep : keep_link prof.include_patterns prof.exclude_patterns = claim_keep prof :=
      funext fun l => rfl
    rw [hkeep]
    simp

def profLiteral : FilterProfile :=
  { include_patterns := ["/job"], exclude_patterns := ["/about"],
    title_must_contain := [], max_jobs := 20 }

def linksLiteral : List String :=
  ["https://x.com/job/123", "https://x.com/about", "https://x.com/"]

/-- Witness for C5 at the spec's literal case; also checks the literal
output `["https://x.com/job/123"]` outright. -/
theorem apply_filters_spec_witness :
    ((∀ p ∈ profLiteral.include_patterns, pyStrip p ≠ "" ∧ pyLower p = p) ∧
     (∀ p ∈ profLiteral.exclude_patterns, pyStrip p ≠ "" ∧ pyLower p = p) ∧
     apply_generic_filters linksLiteral (some profLiteral) = ["https://x.com/job/123"]) ∧
    apply_generic_filters linksLiteral (some profLiteral)
      = (pyDedup (linksLiteral.filter (claim_keep profLiteral))).take profLiteral.max_jobs :=
  ⟨⟨by decide, by decide, by decide⟩,
   apply_filters_spec linksLiteral profLiteral (by decide) (by decide)⟩

/-! ### C9: `infer_generic_filters` -/

/-- C9: the inferred include list is exactly the hints occurring
(case-insensitively) in some candidate link, with the hard-coded default
fallback when no hint occurs; the exclude list is always the default
blocklist and `max_jobs` is 20. -/
theorem infer_filters_spec (links : List String) :
    ((∃ h ∈ include_hints, ∃ l ∈ links, pyIn h (pyLower l) = true) →
        ∀ h, (h ∈ (infer_generic_filters links).include_patterns ↔
          (h ∈ include_hints ∧ ∃ l ∈ links, pyIn h (pyLower l) = true))) ∧
    ((∀ h ∈ include_hints, ∀ l ∈ links, pyIn h (pyLower l) = false) →
        (infer_generic_filters links).include_patterns
          = DEFAULT_GENERIC_FILTERS.include_patterns) ∧
    (infer_generic_filters links).exclude_patterns
      = DEFAULT_GENERIC_FILTERS.exclude_patterns ∧
    (infer_generic_filters links).max_jobs = 20 := by
  have hpred : ∀ h : String,
      ((links.map pyLower).any (fun l => pyIn h l) = true
        ↔ ∃ l ∈ links, pyIn h (pyLower l) = true) := by
    intro h
    simp [List.any_eq_true, List.mem_map]
  refine ⟨?_, ?_, rfl, rfl⟩
  · intro hex h
    obtain ⟨h0, hh0, hocc0⟩ := hex
    have hmem : h0 ∈ include_hints.filter
        (fun h => (links.map pyLower).any (fun l => pyIn h l)) :=
      List.mem_filter.mpr ⟨hh0, by simpa using (hpred h0).mpr hocc0⟩
    have hnonempty : (include_hints.filter
        (fun h => (links.map pyLower).any (fun l => pyIn h l))).isEmpty = false := by
      rcases hq : include_hints.filter
          (fun h => (links.map pyLower).any (fun l => pyIn h l)) with _ | ⟨a, as⟩
      · rw [hq] at hmem
        cases hmem
      · rfl
    have hif : (infer_generic_filters links).include_patterns
        = include_hints.filter (fun h => (links.map pyLower).any (fun l => pyIn h l)) := by
      show (if (include_hints.filter
            (fun h => (links.map pyLower).any (fun l => pyIn h l))).isEmpty
          then DEFAULT_GENERIC_FILTERS.include_patterns
          else include_hints.filter
            (fun h => (links.map pyLower).any (fun l => pyIn h l)))
        = include_hints.filter (fun h => (links.map pyLower).any (fun l => pyIn h l))
      rw [hnonempty]
      rfl
    rw [hif, List.mem_filter]
    constructor
    · rintro ⟨h1, h2⟩
      exact ⟨h1, (hpred h).mp (by simpa using h2)⟩
    · rintro ⟨h1, h2⟩
      exact ⟨h1, by simpa using (hpred h).mpr h2⟩
  · intro hnone
    have hempty : include_hints.filter
        (fun h => (links.map pyLower).any (fun l => pyIn h l)) = [] := by
      apply List.filter_eq_nil_iff.mpr
      intro h hh
      simp only [Bool.not_eq_true]
      rcases hq : (links.map pyLower).any (fun l => pyIn h l) with _ | _
      · rfl
      · exfalso
        rcases (hpred h).mp hq with ⟨l, hl, hocc⟩
        rw [hnone h hh l hl] at hocc
        cases hocc
    show (if (include_hints.filter
          (fun h => (links.map pyLower).any (fun l => pyIn h l))).isEmpty
        then DEFAULT_GENERIC_FILTERS.include_patterns
        else include_hints.filter
          (fun h => (links.map pyLower).any (fun l => pyIn h l)))
      = DEFAULT_GENERIC_FILTERS.include_patterns
    rw [hempty]
    rfl

/-! ### C8: `expand_listing_links` and the fallback -/

/-- The claim's listing-page condition: a listing token present and NO
job-detail token present (the source only rules out `/job/`). -/
def claim_is_listing_link (l : String) : Bool :=
  listing_tokens.any (fun t => pyIn t (pyLower l)) &&
  !(job_tokens.any (fun t => pyIn t (pyLower l)))

/-- `expand_listing_links` as the claim describes it (listing pages must
be free of every job-detail token). -/
def expand_listing_links_claim (fetch : String → Option (List String)) (maxJobs : Nat)
    (links : List String) : List String :=
  if links.isEmpty then []
  else ((expand_loop fetch ((links.filter claim_is_listing_link).take 5) []).take maxJobs)

def cexListingLink : String := "https://x.com/careers/team?ref=lever.co"

def cexOtherLink : String := "https://x.com/opportunities/all"

def cexLinks : List String := [cexListingLink, cexOtherLink]

def cexFetch (u : String) : Option (List String) :=
  if u = cexListingLink then some ["https://x.com/position/9"]
  else if u = cexOtherLink then some []
  else none

/-- Counterexample for C8: `cexListingLink` carries the job-detail token
`lever.co` but not `/job/`; the source still expands it (and harvests
its job anchor), while the claimed selection rule would skip it and
yield nothing. -/
theorem expand_listing_cex :
    is_listing_link cexListingLink = true ∧
    claim_is_listing_link cexListingLink = false ∧
    expand_listing_links cexFetch 20 cexLinks = ["https://x.com/position/9"] ∧
    expand_listing_links_claim cexFetch 20 cexLinks = [] :=
  ⟨by decide, by decide, by decide, by decide⟩

/-- C8 (amended: a candidate is treated as a listing page when it has a
listing token and lacks the `/job/` fragment — the other job-detail
tokens do not disqualify it): expansion visits at most the first 5 such
candidates, keeps exactly the fetched anchors that are absolute http
links carrying a job-detail token, deduplicates them preserving first
occurrences, truncates to `max_jobs`; the result is duplicate-free,
within the cap, and the caller falls back to the filtered list exactly
when expansion is empty. -/
theorem expand_listing_links_spec (fetch : String → Option (List String))
    (maxJobs : Nat) (links filtered : List String) :
    expand_listing_links fetch maxJobs links
      = (pyDedup (((((links.filter is_listing_link).take 5).filterMap fetch).flatten).filter
          anchor_kept)).take maxJobs ∧
    (expand_listing_links fetch maxJobs links).length ≤ maxJobs ∧
    (expand_listing_links fetch maxJobs links).Nodup ∧
    (∀ a ∈ expand_listing_links fetch maxJobs links, anchor_kept a = true) ∧
    (expand_listing_links fetch maxJobs links = [] →
        choose_scrape_links filtered (expand_listing_links fetch maxJobs links) = filtered) ∧
    (expand_listing_links fetch maxJobs links ≠ [] →
        choose_scrape_links filtered (expand_listing_links fetch maxJobs links)
          = expand_listing_links fetch maxJobs links) := by
  have hmain : expand_listing_links fetch maxJobs links
      = (pyDedup (((((links.filter is_listing_link).take 5).filterMap fetch).flatten).filter
          anchor_kept)).take maxJobs := by
    by_cases hl : links = []
    · subst hl
      simp [expand_listing_links, pyDedup_nil]
    · have hne : links.isEmpty = false := by
        cases links with
        | nil => exact absurd rfl hl
        | cons a as => rfl
      unfold expand_listing_links
      rw [hne]
      simp only [Bool.false_eq_true, if_false]
      rw [expand_loop_eq fetch ((links.filter is_listing_link).take 5) [],
        List.nil_append]
      exact congrArg (List.take maxJobs)
        (congrArg pyDedup (List.filter_eq_self.mpr (fun a _ => by simp)))
  refine ⟨hmain, ?_, ?_, ?_, ?_, ?_⟩
  · rw [hmain]
    simp [List.length_take]
  · rw [hmain]
    exact (pyDedup_nodup _).sublist (List.take_sublist _ _)
  · intro a ha
    rw [hmain] at ha
    have h1 := (mem_pyDedup _ a).mp (List.take_subset _ _ ha)
    exact (List.mem_filter.mp h1).2
  · intro h
    simp [choose_scrape_links, h]
  · intro h
    have : (expand_listing_links fetch maxJobs links).isEmpty = false := by
      rcases hq : expand_listing_links fetch maxJobs links with _ | ⟨a, as⟩
      · exact absurd hq h
      · rfl
    simp [choose_scrape_links, this]

/-! ## Text heuristics: `extract_years_of_experience` (lines 44-73)

The source's regular expressions are hand-compiled into backtracking
matchers over `List Char`. A matcher piece maps the remaining input to
the list of possible remainders in Python `re` backtracking preference
order (greedy quantifiers try the longest consumption first, `X?` tries
presence first, alternations try left to right); the full per-position
matcher returns `(captured number, remainder)` alternatives, the head
being the match Python reports. `re.search` scans start positions left
to right; `re.finditer` does the same and resumes after each reported
match's end (non-overlapping matches). -/

/-- `\s*` (on input where `\s` is `isPySpace`): possible remainders,
longest consumption first. -/
def wsStarConts : List Char → List (List Char)
  | [] => [[]]
  | c :: cs => if isPySpace c then wsStarConts cs ++ [c :: cs] else [c :: cs]

/-- `\s+`: at least one whitespace character. -/
def wsPlusConts : List Char → List (List Char)
  | [] => []
  | c :: cs => if isPySpace c then wsStarConts cs else []

/-- `c?`: optional single character, presence preferred. -/
def optCharConts (c : Char) : List Char → List (List Char)
  | [] => [[]]
  | x :: xs => if x = c then [xs, x :: xs] else [x :: xs]

/-- A literal run of characters. -/
def litCont : List Char → List Char → Option (List Char)
  | [], cs => some cs
  | _ :: _, [] => none
  | p :: ps, c :: cs => if p = c then litCont ps cs else none

def digitVal (c : Char) : Nat := c.toNat - '0'.toNat

/-- `(\d{1,2})` with its captured value: two digits preferred. -/
def dig12Conts : List Char → List (Nat × List Char)
  | [] => []
  | c :: cs =>
    if c.isDigit then
      match cs with
      | d :: ds =>
          if d.isDigit then
            [(10 * digitVal c + digitVal d, ds), (digitVal c, d :: ds)]
          else [(digitVal c, d :: ds)]
      | [] => [(digitVal c, [])]
    else []

/-- `(?:experience|exp)`, left alternative preferred. -/
def expAltConts (cs : List Char) : List (List Char) :=
  (litCont "experience".toList cs).toList ++ (litCont "exp".toList cs).toList

/-- `years?`. -/
def yearsConts (cs : List Char) : List (List Char) :=
  match litCont "year".toList cs with
  | none => []
  | some r => optCharConts 's' r

/-- `yrs?`. -/
def yrsConts (cs : List Char) : List (List Char) :=
  match litCont "yr".toList cs with
  | none => []
  | some r => optCharConts 's' r

/-- `(?:word\s*)?`, presence preferred. -/
def optWordWS (w : List Char) (cs : List Char) : List (List Char) :=
  (match litCont w cs with
   | none => []
   | some r => wsStarConts r) ++ [cs]

/-- `(?:to|\-|–)`. -/
def rangeSepConts (cs : List Char) : List (List Char) :=
  (litCont "to".toList cs).toList ++ (litCont "-".toList cs).toList
    ++ (litCont "–".toList cs).toList

/-- The shared tail
`\s*(?:of\s*)?(?:relevant\s*)?(?:professional\s*)?(?:work\s*)?(?:experience|exp)`. -/
def fillerTail (cs : List Char) : List (List Char) :=
  ((((wsStarConts cs).flatMap (optWordWS "of".toList)).flatMap
      (optWordWS "relevant".toList)).flatMap
        (optWordWS "professional".toList)).flatMap
          (optWordWS "work".toList) |>.flatMap expAltConts

/-- The range pattern (line 53-55), capturing both bounds:
`(\d{1,2})\s*\+?\s*(?:to|\-|–)\s*(\d{1,2})\s*\+?\s*years?` + tail. -/
def matchRangeAt (cs : List Char) : List ((Nat × Nat) × List Char) :=
  (dig12Conts cs).flatMap (fun p1 =>
    (wsStarConts p1.2).flatMap (fun r2 =>
      (optCharConts '+' r2).flatMap (fun r3 =>
        (wsStarConts r3).flatMap (fun r4 =>
          (rangeSepConts r4).flatMap (fun r5 =>
            (wsStarConts r5).flatMap (fun r6 =>
              (dig12Conts r6).flatMap (fun p2 =>
                (wsStarConts p2.2).flatMap (fun r8 =>
                  (optCharConts '+' r8).flatMap (fun r9 =>
                    (wsStarConts r9).flatMap (fun r10 =>
                      (yearsConts r10).flatMap (fun r11 =>
                        (fillerTail r11).map (fun r => ((p1.1, p2.1), r)))))))))))))

/-- `(?:minimum(?:\s+of)?|at\s+least|over|more\s+than)?`. -/
def p1PrefixConts (cs : List Char) : List (List Char) :=
  ((match litCont "minimum".toList cs with
    | none => []
    | some r =>
        ((wsPlusConts r).flatMap (fun r2 => (litCont "of".toList r2).toList)) ++ [r])
   ++ (match litCont "at".toList cs with
       | none => []
       | some r => (wsPlusConts r).flatMap (fun r2 => (litCont "least".toList r2).toList))
   ++ (litCont "over".toList cs).toList
   ++ (match litCont "more".toList cs with
       | none => []
       | some r => (wsPlusConts r).flatMap (fun r2 => (litCont "than".toList r2).toList)))
  ++ [cs]

/-- Single pattern 1 (line 62). -/
def matchP1At (cs : List Char) : List (Nat × List Char) :=
  (p1PrefixConts cs).flatMap (fun r0 =>
    (wsStarConts r0).flatMap (fun r1 =>
      (dig12Conts r1).flatMap (fun p =>
        (wsStarConts p.2).flatMap (fun r3 =>
          (optCharConts '+' r3).flatMap (fun r4 =>
            (wsStarConts r4).flatMap (fun r5 =>
              (yearsConts r5).flatMap (fun r6 =>
                (fillerTail r6).map (fun r => (p.1, r)))))))))

/-- Single pattern 2 (line 63). -/
def matchP2At (cs : List Char) : List (Nat × List Char) :=
  (dig12Conts cs).flatMap (fun p =>
    (wsStarConts p.2).flatMap (fun r2 =>
      (optCharConts '+' r2).flatMap (fun r3 =>
        (wsStarConts r3).flatMap (fun r4 =>
          (yrsConts r4).flatMap (fun r5 =>
            (fillerTail r5).map (fun r => (p.1, r)))))))

/-- Single pattern 3 (line 64):
`(?:experience|exp)\s*(?:of\s*)?(\d{1,2})\s*\+?\s*years?`. -/
def matchP3At (cs : List Char) : List (Nat × List Char) :=
  (expAltConts cs).flatMap (fun r1 =>
    (wsStarConts r1).flatMap (fun r2 =>
      (optWordWS "of".toList r2).flatMap (fun r3 =>
        (dig12Conts r3).flatMap (fun p =>
          (wsStarConts p.2).flatMap (fun r5 =>
            (optCharConts '+' r5).flatMap (fun r6 =>
              (wsStarConts r6).flatMap (fun r7 =>
                (yearsConts r7).map (fun r => (p.1, r)))))))))

/-- `re.search`: the first start position with a match; yields the
captured value of the match Python reports there. -/
def searchFirst {α : Type} (m : List Char → List (α × List Char)) :
    List Char → Option α
  | [] =>
      match m [] with
      | (v, _) :: _ => some v
      | [] => none
  | c :: cs =>
      match m (c :: cs) with
      | (v, _) :: _ => some v
      | [] => searchFirst m cs

/-- The `for match in re.finditer(...)` loop of lines 67-71: walk the
non-overlapping matches in scan order and return the first captured
value `v` with `0 < v ≤ 40`; a rejected match is skipped and scanning
resumes after its end. -/
def findIterFirstValid (m : List Char → List (Nat × List Char)) :
    Nat → List Char → Option Nat
  | 0, _ => none
  | Nat.succ fuel, cs =>
      match m cs with
      | (v, rest) :: _ =>
          if 0 < v ∧ v ≤ 40 then some v
          else findIterFirstValid m fuel rest
      | [] =>
          match cs with
          | [] => none
          | _ :: cs2 => findIterFirstValid m fuel cs2

/-- The normalized text of line 50: `re.sub(r'\s+', ' ', text.lower())`. -/
def normChars (text : String) : List Char := collapseWS (pyLower text).toList

/-- The claimed-priority scan over the three single-value patterns. -/
def firstSingleValue (cs : List Char) : Option Nat :=
  match findIterFirstValid matchP1At (cs.length + 1) cs with
  | some v => some v
  | none =>
      match findIterFirstValid matchP2At (cs.length + 1) cs with
      | some v => some v
      | none => findIterFirstValid matchP3At (cs.length + 1) cs

/-- `extract_years_of_experience`. -/
def extract_years_of_experience (text : String) : String :=
  if text = "" then ""
  else
    match searchFirst matchRangeAt (normChars text) with
    | some p => toString p.1
    | none =>
        match firstSingleValue (normChars text) with
        | some v => toString v
        | none => ""

/-- Counterexample for C3: on `"10 to 2 years of experience"` the range
pattern matches with bounds `(10, 2)`, whose minimum is `2`, yet the
source returns `str(int(match.group(1)))` — the *first* bound — so the
output is `"10"`, not the claimed minimum `"2"`. -/
theorem extract_years_cex :
    searchFirst matchRangeAt (normChars "10 to 2 years of experience") = some (10, 2) ∧
    min 10 2 = 2 ∧
    extract_years_of_experience "10 to 2 years of experience" = "10" ∧
    ("10" : String) ≠ "2" :=
  ⟨by decide, by decide, by decide, by decide⟩

/-- C3 (amended: (a) an explicit range phrase has priority and the
*first* bound — not the minimum — is returned, uncapped; (b) otherwise
the three single-value patterns are tried in the source's priority
order, and within one pattern the first non-overlapping match in text
order with `0 < value ≤ 40` wins — a later pattern is only consulted
when every match of the earlier patterns is rejected; (c) otherwise the
empty string). The four literal cases of the spec hold as stated. -/
theorem extract_years_spec (text : String) :
    (text = "" → extract_years_of_experience text = "") ∧
    (∀ n1 n2, text ≠ "" →
        searchFirst matchRangeAt (normChars text) = some (n1, n2) →
        extract_years_of_experience text = toString n1) ∧
    (∀ v, text ≠ "" →
        searchFirst matchRangeAt (normChars text) = none →
        firstSingleValue (normChars text) = some v →
        extract_years_of_experience text = toString v) ∧
    (text ≠ "" →
        searchFirst matchRangeAt (normChars text) = none →
        firstSingleValue (normChars text) = none →
        extract_years_of_experience text = "") ∧
    extract_years_of_experience "3-5 years of experience" = "3" ∧
    extract_years_of_experience "minimum of 5+ years experience" = "5" ∧
    extract_years_of_experience "no mention of experience" = "" ∧
    extract_years_of_experience "45 years experience" = "" := by
  refine ⟨?_, ?_, ?_, ?_, by decide, by decide, by decide, by decide⟩
  · intro h
    subst h
    rfl
  · intro n1 n2 hne hr
    unfold extract_years_of_experience
    rw [if_neg hne, hr]
  · intro v hne hr hs
    unfold extract_years_of_experience
    rw [if_neg hne, hr, hs]
  · intro hne hr hs
    unfold extract_years_of_experience
    rw [if_neg hne, hr, hs]

/-! ## Text heuristics: `extract_essential_keywords` (lines 75-109)

Each vocabulary entry is a small regular expression over ASCII text:
literal characters, `\`-escaped literals (`c\+\+`), and an optional
single character (`\.?` in `node\.?js`). The source wraps every entry
in `\b...\b`; `\b` holds between two positions exactly when one side is
a word character (`[A-Za-z0-9_]`) and the other is not (ends of the
string count as non-word). -/

inductive KTok where
  | lit (c : Char)
  | opt (c : Char)
deriving DecidableEq, Repr

/-- Compile one vocabulary entry (as the Python source string spells
it) into tokens: `\x` is a literal `x`, a character followed by `?` is
optional. -/
def compileKw : List Char → List KTok
  | [] => []
  | '\\' :: c :: '?' :: rest => KTok.opt c :: compileKw rest
  | '\\' :: c :: rest => KTok.lit c :: compileKw rest
  | c :: '?' :: rest => KTok.opt c :: compileKw rest
  | c :: rest => KTok.lit c :: compileKw rest

def isWordChar (c : Char) : Bool := c.isAlphanum || c = '_'

def isWordOpt : Option Char → Bool
  | none => false
  | some c => isWordChar c

/-- Match the tokens against the input; yields the alternatives of
`(last consumed character, remainder)`, presence of an optional
character preferred. `last` seeds the value reported when no token
consumes (never the case for the vocabulary). -/
def kwMatch : List KTok → Char → List Char → List (Char × List Char)
  | [], last, cs => [(last, cs)]
  | KTok.lit c :: ts, _, x :: xs => if x = c then kwMatch ts x xs else []
  | KTok.lit _ :: _, _, [] => []
  | KTok.opt c :: ts, last, x :: xs =>
      (if x = c then kwMatch ts x xs else []) ++ kwMatch ts last (x :: xs)
  | KTok.opt _ :: ts, last, [] => kwMatch ts last []

/-- `re.search(r'\b' + kw + r'\b', ·) is not None`: scan every start
position, checking the word boundary on both sides. -/
def kwSearchAux (toks : List KTok) : Option Char → List Char → Bool
  | _, [] => false
  | prev, c :: cs =>
      ((isWordOpt prev != isWordChar c) &&
        (kwMatch toks c (c :: cs)).any
          (fun lr => isWordChar lr.1 != isWordOpt lr.2.head?))
      || kwSearchAux toks (some c) cs

def kwFound (kw : String) (cs : List Char) : Bool :=
  kwSearchAux (compileKw kw.toList) none cs

/-- The vocabulary, exactly as the source lists it. -/
def tech_keywords : List String :=
  ["python", "java", "javascript", "typescript", "c\\+\\+", "c#", "ruby", "go",
   "rust", "php", "swift", "kotlin",
   "react", "angular", "vue", "node\\.?js", "django", "flask", "spring",
   "express", "fastapi",
   "sql", "mysql", "postgresql", "mongodb", "redis", "dynamodb", "oracle",
   "cassandra",
   "aws", "azure", "gcp", "docker", "kubernetes", "jenkins", "ci/cd",
   "terraform", "ansible",
   "machine learning", "deep learning", "ai", "data science", "tensorflow",
   "pytorch", "pandas", "numpy",
   "agile", "scrum", "git", "rest api", "graphql", "microservices", "linux",
   "bash"]

/-- Python `str.title()` on ASCII: a letter after a non-letter is
upper-cased, a letter after a letter lower-cased. -/
def pyTitleAux : Bool → List Char → List Char
  | _, [] => []
  | prevAlpha, c :: cs =>
      if c.isAlpha then
        (if prevAlpha then c.toLower else c.toUpper) :: pyTitleAux true cs
      else c :: pyTitleAux false cs

def pyTitle (cs : List Char) : List Char := pyTitleAux false cs

/-- Lines 104-105: strip `\`, `.`, `?` from the entry, then upper-case
it when at most 4 characters remain, else title-case it. -/
def displayOf (kw : String) : String :=
  let clean := kw.toList.filter (fun c => c ≠ '\\' && c ≠ '.' && c ≠ '?')
  if clean.length ≤ 4 then String.mk (clean.map Char.toUpper)
  else String.mk (pyTitle clean)

/-- `', '.join`. -/
def joinCommaSep : List String → String
  | [] => ""
  | [x] => x
  | x :: y :: xs => x ++ ", " ++ joinCommaSep (y :: xs)

/-- `f"{title} {text}".lower()`. -/
def combinedText (text title : String) : List Char :=
  (pyLower (title ++ " " ++ text)).toList

/-- The `found_keywords` loop (lines 100-105): walk the vocabulary in
order, keep the display form of every entry found whole-word in the
combined text. -/
def found_keywords (combined : List Char) : List String :=
  (tech_keywords.filter (fun kw => kwFound kw combined)).map displayOf

/-- Lines 107-109: dedup preserving first occurrences, cap at 15. -/
def keyword_list (text title : String) : List String :=
  (pyDedup (found_keywords (combinedText text title))).take 15

/-- `extract_essential_keywords` (the comma-separated display string). -/
def extract_essential_keywords (text : String) (title : String) : String :=
  if text = "" then ""
  else joinCommaSep (keyword_list text title)

/-- Index of the first occurrence of `pat` in a character list. -/
def subPos (pat : List Char) : List Char → Option Nat
  | [] => if headMatch pat [] then some 0 else none
  | c :: cs => if headMatch pat (c :: cs) then some 0 else (subPos pat cs).map (· + 1)

/-- Counterexample for C4: in `"java and python developers"` the word
`java` occurs (position 1 of the combined text) before `python`
(position 10), so first-seen order would list the Java keyword first;
the source walks the fixed vocabulary, where `python` precedes `java`,
and returns `"Python, JAVA"`. -/
theorem extract_keywords_cex :
    extract_essential_keywords "java and python developers" "" = "Python, JAVA" ∧
    keyword_list "java and python developers" "" = ["Python", "JAVA"] ∧
    subPos "java".toList (combinedText "java and python developers" "") = some 1 ∧
    subPos "python".toList (combinedText "java and python developers" "") = some 10 ∧
    (1 : Nat) < 10 :=
  ⟨by decide, by decide, by decide, by decide, by decide⟩

/-- C4 (amended: the output order is the fixed vocabulary order, not
first-seen order in the combined text): keyword extraction matches the
fixed vocabulary case-insensitively as whole words over title + text,
canonicalizes each hit (≤4 remaining characters upper-cased, longer
title-cased), removes duplicates preserving the first occurrence, caps
the result at 15, and for the spec's literal case returns
`"Python, AWS, Docker"`. -/
theorem extract_keywords_spec (text title : String) :
    (text = "" → extract_essential_keywords text title = "") ∧
    (text ≠ "" →
        extract_essential_keywords text title = joinCommaSep (keyword_list text title)) ∧
    (keyword_list text title).Nodup ∧
    (keyword_list text title).length ≤ 15 ∧
    List.Sublist (keyword_list text title) (tech_keywords.map displayOf) ∧
    (∀ s ∈ keyword_list text title, ∃ kw ∈ tech_keywords,
        kwFound kw (combinedText text title) = true ∧ s = displayOf kw) ∧
    (∀ kw ∈ tech_keywords, kwFound kw (combinedText text title) = true →
        displayOf kw ∈ pyDedup (found_keywords (combinedText text title))) ∧
    extract_essential_keywords "Looking for a Python developer with AWS and Docker skills"
      "Backend Engineer" = "Python, AWS, Docker" := by
  refine ⟨?_, ?_, ?_, ?_, ?_, ?_, ?_, by decide⟩
  · intro h
    subst h
    rfl
  · intro hne
    unfold extract_essential_keywords
    rw [if_neg hne]
  · exact ((pyDedup_nodup _).sublist (List.take_sublist _ _))
  · simp [keyword_list, List.length_take]
  · refine List.Sublist.trans (List.take_sublist _ _)
      (List.Sublist.trans (pyDedup_sublist _) ?_)
    exact List.Sublist.map displayOf (List.filter_sublist _)
  · intro s hs
    have h1 := (mem_pyDedup _ s).mp (List.take_subset _ _ hs)
    obtain ⟨kw, hkw, rfl⟩ := List.mem_map.mp h1
    exact ⟨kw, (List.mem_filter.mp hkw).1, (List.mem_filter.mp hkw).2, rfl⟩
  · intro kw hkw hfound
    exact (mem_pyDedup _ _).mpr
      (List.mem_map_of_mem displayOf (List.mem_filter.mpr ⟨hkw, hfound⟩))

/-- C10: the falsy-text guard of `extract_essential_keywords` fires
before the title is combined in, so an empty description yields the
empty string whatever the title says. -/
theorem extract_keywords_empty_text (title : String) :
    extract_essential_keywords "" title = "" := rfl

end JobFinder
